import Mathlib

/-!
Verification of the gemini-tts repository against its specification.

The development shallowly embeds the two source files:
* `tts_server.py` — session store, login/logout/me HTTP handlers, the
  `/ws/tts` websocket loop, and the catch-all static file route;
* `server.py` — the duplex audio bridge (client loop, inbound queue,
  upstream-forwarding loop, shutdown `finally` block).

Strings are Lean `String`s, time is a `Nat` (the code compares `datetime`
values only with `>` and stores `now + 24h`, so any linearly ordered clock
works; we use seconds). The in-memory `sessions` dict is an association
list with first-match lookup and erase. Fallible operations return
`Option`; Python exceptions that escape a handler are modelled as the
handler loop terminating.

The text chunker and the chunked TTS mode are referenced by the spec but
absent from the source tree; they are modelled from the spec (see the
doc comments starting `Modelled from the spec:`).
-/

/-- A stored session record: `sessions[token]` in `tts_server.py` holds
`username`, `created_at` and `expires_at`. -/
structure Session where
  owner : String
  created_at : Nat
  expires_at : Nat
deriving DecidableEq, Repr

/-- The in-memory `sessions` dict, as an association list keyed by token. -/
def Store := List (String × Session)
deriving DecidableEq

/-- Dict lookup: first binding of the token wins. -/
def lookupS (t : String) : Store → Option Session
  | [] => none
  | (k, s) :: rest => if k = t then some s else lookupS t rest

/-- Dict deletion `del sessions[token]`: removes the first binding. -/
def eraseS (t : String) : Store → Store
  | [] => []
  | (k, s) :: rest => if k = t then rest else (k, s) :: eraseS t rest

/-- Embedding of `verify_session` from `tts_server.py` (lines 70–78):
`if not token or token not in sessions: return False`;
`if datetime.now() > expires_at: del sessions[token]; return False`;
else `return True`.  The Python falsiness of `None` and `""` is modelled
by the `none` case and the `t = ""` test.  Returns the boolean result
together with the (possibly mutated) store. -/
def verify_session (tok : Option String) (st : Store) (now : Nat) : Bool × Store :=
  match tok with
  | none => (false, st)
  | some t =>
    if t = "" then (false, st)
    else
      match lookupS t st with
      | none => (false, st)
      | some s => if s.expires_at < now then (false, eraseS t st) else (true, st)

/-- Embedding of `get_current_user` from `tts_server.py` (lines 81–85): runs
`verify_session` and, when it holds, reads `sessions[token]["username"]`
from the post-verification store. -/
def get_current_user (tok : Option String) (st : Store) (now : Nat) :
    Option String × Store :=
  let r := verify_session tok st now
  if r.fst then
    match tok with
    | some t => ((lookupS t r.snd).map Session.owner, r.snd)
    | none => (none, r.snd)
  else (none, r.snd)

/-! ### Token generation

`create_session` calls `secrets.token_hex(32)`: 32 uniformly random bytes
rendered as 64 lowercase hex characters.  We model the 256-bit entropy
source as a natural number `rnd` and the rendering as `tokenHex`, and
prove `tokenHex` injective (so distinct 256-bit draws give distinct
tokens) and of length 64 on the 2^256-element domain. -/

/-- One lowercase hex digit. -/
def hexChar : Nat → Char
  | 0 => '0' | 1 => '1' | 2 => '2' | 3 => '3'
  | 4 => '4' | 5 => '5' | 6 => '6' | 7 => '7'
  | 8 => '8' | 9 => '9' | 10 => 'a' | 11 => 'b'
  | 12 => 'c' | 13 => 'd' | 14 => 'e' | 15 => 'f'
  | _ => '0'

/-- Inverse of `hexChar` on hex digits. -/
def hexVal : Char → Nat
  | '0' => 0 | '1' => 1 | '2' => 2 | '3' => 3
  | '4' => 4 | '5' => 5 | '6' => 6 | '7' => 7
  | '8' => 8 | '9' => 9 | 'a' => 10 | 'b' => 11
  | 'c' => 12 | 'd' => 13 | 'e' => 14 | 'f' => 15
  | _ => 0

/-- Base-16 digits of `rnd`, little-endian, zero-padded to 64 digits. -/
def hexDigits64 (rnd : Nat) : List Nat :=
  Nat.digits 16 rnd ++ List.replicate (64 - (Nat.digits 16 rnd).length) 0

/-- Model of `secrets.token_hex(32)` as a function of the 256-bit random draw:
the 64-character lowercase hex rendering (big-endian). -/
def tokenHex (rnd : Nat) : String :=
  ⟨((hexDigits64 rnd).map hexChar).reverse⟩

/-- Decoder used to prove `tokenHex` injective. -/
def unTokenHex (s : String) : Nat :=
  Nat.ofDigits 16 (s.data.reverse.map (fun c => (hexVal c : Nat)))

/-- Embedding of `create_session` from `tts_server.py` (lines 59–67): draws a token,
stores `{username, created_at := now, expires_at := now + 24h}` under it
(dict assignment: the new binding shadows any old one), returns the token.
Time is in seconds, so 24 hours is 86400. -/
def create_session (username : String) (rnd : Nat) (st : Store) (now : Nat) :
    String × Store :=
  let token := tokenHex rnd
  (token, (token, ⟨username, now, now + 86400⟩) :: st)

/-! ### HTTP handlers of `tts_server.py` -/

/-- Result of `POST /api/login`: HTTP status, the `success` field of the
JSON body, the `session_token` cookie set (if any), and the store after
the request. -/
structure LoginResult where
  status : Nat
  success : Bool
  cookie : Option String
  store : Store
deriving DecidableEq

/-- Embedding of `login` from `tts_server.py` (lines 95–110): on a credential match,
create a session and set the cookie; otherwise status 401 and no session. -/
def login (adminU adminP : String) (u p : String) (rnd : Nat) (st : Store)
    (now : Nat) : LoginResult :=
  if u = adminU ∧ p = adminP then
    let r := create_session u rnd st now
    ⟨200, true, some r.fst, r.snd⟩
  else ⟨401, false, none, st⟩

/-- Embedding of `logout` from `tts_server.py` (lines 114–119):
`if session_token and session_token in sessions: del sessions[session_token]`. -/
def logout (tok : Option String) (st : Store) : Store :=
  match tok with
  | none => st
  | some t =>
    if t = "" then st
    else match lookupS t st with
      | none => st
      | some _ => eraseS t st

/-- Embedding of `get_me` from `tts_server.py` (lines 123–127): the `logged_in` flag,
the `username` field when logged in, and the store after the request. -/
def get_me (tok : Option String) (st : Store) (now : Nat) :
    (Bool × Option String) × Store :=
  let r := verify_session tok st now
  if r.fst then
    match tok with
    | some t => ((true, (lookupS t r.snd).map Session.owner), r.snd)
    | none => ((true, none), r.snd)
  else ((false, none), r.snd)

/-- Response of the catch-all `GET /{filename}` route. -/
inductive FileResp where
  | file (content : String)
  | redirect (url : String)
deriving DecidableEq

/-- Does the filename end with one of the static-asset extensions checked
by `serve_file` (`.css .js .png .ico .svg`)? -/
def staticExt (filename : String) : Bool :=
  List.isSuffixOf ".css".data filename.data ||
  List.isSuffixOf ".js".data filename.data ||
  List.isSuffixOf ".png".data filename.data ||
  List.isSuffixOf ".ico".data filename.data ||
  List.isSuffixOf ".svg".data filename.data

/-- Embedding of `serve_file` from `tts_server.py` (lines 209–224).  The filesystem is
a partial map from filename to contents (`some` exactly when the path
exists and is a regular file).  Static-asset names that resolve are served
before any session check; otherwise an unauthenticated request is
redirected to `/`, then existing files are served and missing ones
redirect to `/tts`. -/
def serve_file (filename : String) (tok : Option String)
    (fs : String → Option String) (st : Store) (now : Nat) : FileResp × Store :=
  if staticExt filename ∧ (fs filename).isSome then
    (FileResp.file ((fs filename).getD ""), st)
  else
    let r := verify_session tok st now
    if r.fst then
      match fs filename with
      | some c => (FileResp.file c, r.snd)
      | none => (FileResp.redirect "/tts", r.snd)
    else (FileResp.redirect "/", r.snd)

/-! ### The duplex bridge of `server.py` -/

/-- A frame sent to the client over the websocket (the JSON messages of
both servers, discriminated by their `type` field). -/
inductive Frame where
  | connected
  | audio (data : String)
  | text (data : String)
  | turnComplete
  | interrupted
  | progress (current total : Nat)
  | complete
  | error (msg : String)
deriving DecidableEq, Repr

/-- A message arriving on the client websocket, as seen by the handler
loop: either text that `json.loads` rejects, or a parsed JSON object with
its `type` field (absent keys are `none`) and an optional `data` payload. -/
inductive CMsg where
  | malformed
  | typed (ty : String) (data : Option String)
deriving DecidableEq, Repr

/-- One iteration of the client-message loop of `websocket_endpoint`
(`server.py` lines 134–150).  `b64` is the base64 decoder (`none` when
`b64decode` raises).  Result: `none` when the iteration raises and the
`except` clause runs `break` (invalid JSON, missing `data` key, bad
base64); `some none` when the message is ignored and the loop continues;
`some (some bs)` when `bs` is put on the inbound audio queue. -/
def clientStep (b64 : String → Option (List Nat)) : CMsg →
    Option (Option (List Nat))
  | CMsg.malformed => none
  | CMsg.typed ty data =>
    if ty = "audio" then
      match data with
      | none => none
      | some d =>
        match b64 d with
        | none => none
        | some bs => some (some bs)
    else some none

/-- The client-message loop run over a finite schedule of incoming
messages: the queue contents it produced (in order) and whether the loop
was still running when the schedule ended (`false` when it hit `break`). -/
def clientLoop (b64 : String → Option (List Nat)) : List CMsg →
    List (List Nat) × Bool
  | [] => ([], true)
  | m :: rest =>
    match clientStep b64 m with
    | none => ([], false)
    | some none => clientLoop b64 rest
    | some (some bs) =>
      let r := clientLoop b64 rest
      (bs :: r.fst, r.snd)

/-- The consumer loop `send_to_gemini` (`server.py` lines 106–118): pop
queue items, stop at the `None` sentinel, forward each payload to the
upstream session.  Input: queue contents in FIFO order (`none` is the
sentinel); output: the payload sequence handed to
`send_realtime_input`. -/
def drainQueue : List (Option (List Nat)) → List (List Nat)
  | [] => []
  | none :: _ => []
  | some bs :: rest => bs :: drainQueue rest

/-- End-to-end client→upstream path for audio payloads `ps` received
before any upstream response: the client loop enqueues, the `finally`
block appends the sentinel, `send_to_gemini` drains. -/
def sentToUpstream (b64 : String → Option (List Nat)) (ps : List String) :
    List (List Nat) :=
  drainQueue
    (((clientLoop b64 (ps.map fun p => CMsg.typed "audio" (some p))).fst.map
        Option.some) ++ [none])

/-- Observable state of one `websocket_endpoint` connection: the
`is_connected` flag, the inbound queue contents, whether the upstream
session is still open, how many times `close()` was called on it, and the
frames so far written to the client transport. -/
structure BridgeState where
  is_connected : Bool
  queue : List (Option (List Nat))
  geminiOpen : Bool
  closeCalls : Nat
  sentToClient : List Frame
deriving DecidableEq, Repr

/-- Embedding of `send_to_client` (`server.py` lines 58–64): write the frame to the
client transport only when `is_connected` holds. -/
def send_to_client (st : BridgeState) (f : Frame) : BridgeState :=
  if st.is_connected then { st with sentToClient := st.sentToClient ++ [f] } else st

/-- The `finally` block of `websocket_endpoint` (`server.py` lines
156–163): clear `is_connected`, put the `None` sentinel on the queue and,
when a session exists (`hasSession`), call `gemini_session.close()`. -/
def finallyBlock (st : BridgeState) (hasSession : Bool) : BridgeState :=
  let st1 := { st with is_connected := false }
  let st2 := { st1 with queue := st1.queue ++ [none] }
  if hasSession then
    { st2 with geminiOpen := false, closeCalls := st2.closeCalls + 1 }
  else st2

/-! ### The `/ws/tts` loop of `tts_server.py` -/

/-- A message on the TTS websocket after `json.loads`: `malformed` when
parsing raises, otherwise the optional `type` and `text` fields. -/
inductive TMsg where
  | malformed
  | typed (ty : Option String) (text : Option String)
deriving DecidableEq, Repr

/-- One iteration of the `websocket_tts` loop (`tts_server.py` lines
158–205).  `upstream` gives, for a request text, the frames the handler
relays for that request (audio chunks then `complete`, or an `error`
frame when the upstream raises); opening it counts one session.  Result:
`none` when the iteration raises out of the loop (invalid JSON reaches
the outer `except` and the handler returns); otherwise the frames sent
and the number of upstream sessions opened. -/
def ttsStep (upstream : String → List Frame) : TMsg →
    Option (List Frame × Nat)
  | TMsg.malformed => none
  | TMsg.typed ty text =>
    if ty = some "tts" then
      let t := text.getD ""
      if t = "" then some ([], 0)
      else some (upstream t, 1)
    else some ([], 0)

/-- The `websocket_tts` loop over a finite schedule: frames sent to the
client, upstream sessions opened, and whether the loop was still running
when the schedule ended. -/
def ttsLoop (upstream : String → List Frame) : List TMsg →
    List Frame × Nat × Bool
  | [] => ([], 0, true)
  | m :: rest =>
    match ttsStep upstream m with
    | none => ([], 0, false)
    | some (fs, k) =>
      let r := ttsLoop upstream rest
      (fs ++ r.fst, k + r.2.1, r.2.2)

/-! ### TextChunker and the chunked TTS mode

The specification describes a TextChunker (§4.3) and a chunked
text-to-speech mode (§4.5) as part of the repository, but neither appears
in the two files under `src/`; they are modelled here from the spec's
words.  Text is handled at the character-list level. -/

/-- Sentence-final punctuation of §4.3 step 2: `. ! ? 。！？`. -/
def sentencePunct (c : Char) : Bool :=
  c = '.' || c = '!' || c = '?' || c = '。' || c = '！' || c = '？'

/-- Clause punctuation of §4.3 step 4: `, ， ; ；`. -/
def clausePunct (c : Char) : Bool :=
  c = ',' || c = '，' || c = ';' || c = '；'

/-- Whitespace characters, for discarding pure-whitespace segments. -/
def wsChar (c : Char) : Bool :=
  c = ' ' || c = '\t' || c = '\n' || c = '\r'

/-- Modelled from the spec: segmentation on boundary punctuation (§4.3
steps 2 and 4).  Cuts the text immediately after each character
satisfying `p`, keeping the punctuation at the end of its segment; `acc`
is the reversed pending segment. -/
def segmentBy (p : Char → Bool) (acc : List Char) : List Char → List (List Char)
  | [] => if acc.isEmpty then [] else [acc.reverse]
  | c :: cs =>
    if p c then (acc.reverse ++ [c]) :: segmentBy p [] cs
    else segmentBy p (c :: acc) cs

/-- Modelled from the spec: the sentence segments of a text (§4.3 step
2): segment on sentence-final punctuation, discarding pure-whitespace
segments. -/
def sentenceSegs (t : List Char) : List (List Char) :=
  (segmentBy sentencePunct [] t).filter fun s => !(s.all wsChar)

/-- Modelled from the spec: the whitespace normalization implied by §4.3
step 2 / §8: the text with its pure-whitespace sentence segments
removed. -/
def normalizeText (t : List Char) : List Char :=
  (sentenceSegs t).flatten

/-- Modelled from the spec: greedy packing (§4.3 steps 3–5).  Pack the
segments of `l` into a running buffer `buf`: append a segment while the
buffer stays within `S`; otherwise flush the buffer and start a new one
with the segment; a segment longer than `S` is flushed through `big`
(the one-level recursive sub-split of step 4); finally flush any trailing
buffer. -/
def packChunks (S : Nat) (big : List Char → List (List Char)) :
    List (List Char) → List Char → List (List Char)
  | [], buf => if buf.isEmpty then [] else [buf]
  | s :: rest, buf =>
    if buf.length + s.length ≤ S then packChunks S big rest (buf ++ s)
    else if s.length ≤ S then buf :: packChunks S big rest s
    else
      (if buf.isEmpty then [] else [buf]) ++ big s ++ packChunks S big rest []

/-- Modelled from the spec: the one-level clause sub-split of an
oversized sentence (§4.3 step 4): segment on clause punctuation and
greedy-pack; a clause still exceeding `S` is emitted as its own chunk
(the spec names no further fallback). -/
def splitClause (S : Nat) (s : List Char) : List (List Char) :=
  packChunks S (fun c => [c]) (segmentBy clausePunct [] s) []

/-- Modelled from the spec: `TextChunker.split(text, maxSize)` (§4.3):
texts within the bound are returned as a single chunk (step 1); otherwise
the sentence segments are greedy-packed with the clause sub-split for
oversized sentences (steps 2–5). -/
def splitText (S : Nat) (t : List Char) : List (List Char) :=
  if t.length ≤ S then [t]
  else packChunks S (splitClause S) (sentenceSegs t) []

/-- Modelled from the spec: the chunked TTS Streaming state (§4.5): one
upstream session per chunk, a `progress{current, total}` frame before
each chunk's session (1-based `current`), then the frames `upstream`
relays for that chunk. -/
def chunkFrames (upstream : String → List Frame) (total : Nat) :
    Nat → List String → List Frame
  | _, [] => []
  | i, c :: rest =>
    Frame.progress i total :: (upstream c ++ chunkFrames upstream total (i + 1) rest)

/-- Modelled from the spec: the full chunked-mode frame sequence for a
request split into `chunks`: the per-chunk sessions with their progress
frames, then a single `complete` frame after the last chunk's turn
(§4.5). -/
def chunkedTTS (upstream : String → List Frame) (chunks : List String) :
    List Frame :=
  chunkFrames upstream chunks.length 1 chunks ++ [Frame.complete]

/-- Is a frame a `progress` frame? -/
def isProgress : Frame → Bool
  | Frame.progress _ _ => true
  | _ => false

/-- The spec-side verification contract (amended at the expiry boundary):
the owner is returned iff the token is a nonempty key of the store whose
`expires_at` has not passed (`now ≤ expires_at`); otherwise `invalid`
(`none`), with the entry deleted exactly when it was present, nonempty
and expired. -/
def verify_spec (tok : Option String) (st : Store) (now : Nat) :
    Option String × Store :=
  match tok with
  | none => (none, st)
  | some t =>
    if t = "" then (none, st)
    else
      match lookupS t st with
      | none => (none, st)
      | some s =>
        if now ≤ s.expires_at then (some s.owner, st) else (none, eraseS t st)

/-! ## Theorems -/

/-- Helper: looking up the key just prepended. -/
theorem lookupS_cons_self (t : String) (s : Session) (st : Store) :
    lookupS t ((t, s) :: st) = some s := by
  simp [lookupS]

/-- C1: the claim states that `verify` returns the owner iff the token is
present and the current time is strictly before `expires_at`.  The code
uses `datetime.now() > expires_at` for expiry, so at `now = expires_at`
it still accepts: with token `"t"` stored with `expires_at = 10`, at time
10 verification succeeds although `10 < 10` fails, refuting the claimed
equivalence at this concrete input. -/
theorem C1_counterexample :
    (verify_session (some "t") [("t", ⟨"a", 0, 10⟩)] 10).fst = true ∧
      (get_current_user (some "t") [("t", ⟨"a", 0, 10⟩)] 10).fst = some "a" ∧
      lookupS "t" [("t", ⟨"a", 0, 10⟩)] = some ⟨"a", 0, 10⟩ ∧ ¬ (10 < 10) := by
  refine ⟨by decide, by decide, by decide, by decide⟩

/-- C1 (amended): `get_current_user` agrees everywhere with the
boundary-corrected contract `verify_spec`: the owner is returned iff the
token is a nonempty stored key with `now ≤ expires_at`; otherwise the
result is `invalid` (`none`, never an exception — the function is total
and returns an `Option`), and the entry is deleted exactly when it was
present but expired (`now > expires_at`). -/
theorem C1_verify_refines_spec (tok : Option String) (st : Store) (now : Nat) :
    get_current_user tok st now = verify_spec tok st now := by
  match tok with
  | none => simp [get_current_user, verify_session, verify_spec]
  | some t =>
    by_cases ht : t = ""
    · simp [get_current_user, verify_session, verify_spec, ht]
    · match hl : lookupS t st with
      | none => simp [get_current_user, verify_session, verify_spec, ht, hl]
      | some s =>
        by_cases hexp : s.expires_at < now
        · simp [get_current_user, verify_session, verify_spec, ht, hl, hexp,
            Nat.not_le.mpr hexp]
        · simp [get_current_user, verify_session, verify_spec, ht, hl, hexp,
            Nat.le_of_not_lt hexp]

/-- C2: the claim states that a message that is invalid JSON is logged
and ignored with the connection staying open.  In `server.py` the
`except` clause around the message loop ends in `break`, and in
`tts_server.py` the `json.loads` failure propagates to the outer
`except`, so in both handlers invalid JSON terminates the loop: after a
malformed message the loop reports closed and a following well-formed
audio message is never processed. -/
theorem C2_counterexample :
    clientLoop (fun _ => some [1]) [CMsg.malformed, CMsg.typed "audio" (some "x")]
        = ([], false) ∧
      ttsLoop (fun _ => []) [TMsg.malformed, TMsg.typed (some "tts") (some "hi")]
        = ([], 0, false) := by
  constructor <;> rfl

/-- C2 (amended): a client message whose `type` is unknown is ignored and
the connection stays open, continuing with the remaining messages (in
both websocket handlers); a message that is invalid JSON instead
terminates the loop and the connection closes. -/
theorem C2_unknown_type_ignored (b64 : String → Option (List Nat))
    (upstream : String → List Frame) :
    (∀ ty d rest, ty ≠ "audio" →
        clientLoop b64 (CMsg.typed ty d :: rest) = clientLoop b64 rest) ∧
      (∀ ty text rest, ty ≠ some "tts" →
        ttsLoop upstream (TMsg.typed ty text :: rest) = ttsLoop upstream rest) ∧
      (∀ rest, clientLoop b64 (CMsg.malformed :: rest) = ([], false)) ∧
      (∀ rest, ttsLoop upstream (TMsg.malformed :: rest) = ([], 0, false)) := by
  refine ⟨fun ty d rest hty => ?_, fun ty text rest hty => ?_,
    fun rest => rfl, fun rest => rfl⟩
  · simp [clientLoop, clientStep, hty]
  · simp [ttsLoop, ttsStep, hty]

/-- Witness for `C2_unknown_type_ignored` at a concrete input. -/
theorem C2_unknown_type_ignored_witness :
    clientLoop (fun _ => some [1]) [CMsg.typed "ping" none] = ([], true) ∧
      ttsLoop (fun _ => []) [TMsg.typed (some "ping") none] = ([], 0, true) := by
  have h := C2_unknown_type_ignored (fun _ => some [1]) (fun _ => [])
  exact ⟨(h.1 "ping" none [] (by decide)).trans rfl,
    (h.2.1 (some "ping") none [] (by decide)).trans rfl⟩

/-- Helper: the consumer loop forwards exactly the queued payloads, in
order, and exits at the sentinel whatever follows it. -/
theorem drainQueue_map_some (xs : List (List Nat)) (ys : List (Option (List Nat))) :
    drainQueue (xs.map Option.some ++ Option.none :: ys) = xs := by
  induction xs with
  | nil => rfl
  | cons x xs ih => simpa [drainQueue] using ih

/-- Helper: the client loop on a schedule of decodable audio messages
enqueues every decoded payload in order and is still running at the end. -/
theorem clientLoop_audio (b64 : String → Option (List Nat)) (ps : List String)
    (h : ∀ p ∈ ps, (b64 p).isSome) :
    clientLoop b64 (ps.map fun p => CMsg.typed "audio" (some p))
      = (ps.map fun p => (b64 p).getD [], true) := by
  induction ps with
  | nil => rfl
  | cons p ps ih =>
    have hp : (b64 p).isSome := h p (List.mem_cons_self p ps)
    match hb : b64 p with
    | none => rw [hb] at hp; exact absurd hp (by simp)
    | some bs =>
      have := ih fun q hq => h q (List.mem_cons_of_mem p hq)
      simp [clientLoop, clientStep, hb, this]

/-- C4: every sequence of `N` client audio frames received before any
upstream response is forwarded to the upstream adapter in the order
received: the payload sequence handed to `send_realtime_input` is exactly
the decoded payloads of the client messages, first-in first-out, with no
reordering and no drops. -/
theorem C4_fifo_forwarding (b64 : String → Option (List Nat)) (ps : List String)
    (h : ∀ p ∈ ps, (b64 p).isSome) :
    sentToUpstream b64 ps = ps.map (fun p => (b64 p).getD []) ∧
      (sentToUpstream b64 ps).length = ps.length := by
  have hq := clientLoop_audio b64 ps h
  constructor
  · unfold sentToUpstream
    rw [hq]
    exact drainQueue_map_some _ _
  · unfold sentToUpstream
    rw [hq]
    have hd := drainQueue_map_some (ps.map fun p => (b64 p).getD []) []
    rw [hd]
    simp

/-- Witness for `C4_fifo_forwarding` at a concrete input. -/
theorem C4_fifo_forwarding_witness :
    sentToUpstream (fun p => some [p.length]) ["a", "bb", "ccc"]
        = [[1], [2], [3]] ∧
      (sentToUpstream (fun p => some [p.length]) ["a", "bb", "ccc"]).length = 3 := by
  have h := C4_fifo_forwarding (fun p => some [p.length]) ["a", "bb", "ccc"]
    (by intro p _; rfl)
  exact ⟨h.1.trans (by rfl), h.2⟩

/-- C5: the `finally` block run on every exit from the streaming phase
(with the upstream session present, as it is while streaming) clears the
liveness flag, appends the `None` sentinel to the inbound queue — at which
the consumer loop stops, whatever is behind it — and calls
`gemini_session.close()`; afterwards `send_to_client` is an identity, so
no write to the client transport is attempted, because it checks the
liveness flag first. -/
theorem C5_draining_shutdown (st : BridgeState) :
    (finallyBlock st true).is_connected = false ∧
      (finallyBlock st true).queue = st.queue ++ [none] ∧
      (finallyBlock st true).closeCalls = st.closeCalls + 1 ∧
      (finallyBlock st true).geminiOpen = false ∧
      (∀ f, send_to_client (finallyBlock st true) f = finallyBlock st true) ∧
      (∀ xs ys, drainQueue (xs.map Option.some ++ Option.none :: ys) = xs) := by
  refine ⟨rfl, rfl, rfl, rfl, fun f => ?_, fun xs ys => drainQueue_map_some xs ys⟩
  simp [send_to_client, finallyBlock]

/-- Helper: `hexVal` inverts `hexChar` on hex digits. -/
theorem hexVal_hexChar (d : Nat) (hd : d < 16) : hexVal (hexChar d) = d := by
  interval_cases d <;> rfl

/-- Helper: a run of zero digits contributes nothing. -/
theorem ofDigits_replicate_zero (k : Nat) :
    Nat.ofDigits 16 (List.replicate k 0) = 0 := by
  induction k with
  | zero => rfl
  | succ k ih => simp [List.replicate, Nat.ofDigits, ih]

/-- Helper: every entry of the padded digit list is a hex digit. -/
theorem hexDigits64_lt (rnd : Nat) : ∀ d ∈ hexDigits64 rnd, d < 16 := by
  intro d hd
  rcases List.mem_append.mp hd with h | h
  · exact Nat.digits_lt_base (by norm_num) h
  · rw [List.eq_of_mem_replicate h]; norm_num

/-- Helper: `unTokenHex` decodes every token, so `tokenHex` is injective:
the token determines the 256-bit draw. -/
theorem unTokenHex_tokenHex (rnd : Nat) : unTokenHex (tokenHex rnd) = rnd := by
  unfold unTokenHex tokenHex
  rw [show (String.mk ((hexDigits64 rnd).map hexChar).reverse).data
      = ((hexDigits64 rnd).map hexChar).reverse from rfl]
  rw [List.reverse_reverse, List.map_map]
  have hmap : (hexDigits64 rnd).map ((fun c => (hexVal c : Nat)) ∘ hexChar)
      = hexDigits64 rnd := by
    have hid := List.map_congr_left (l := hexDigits64 rnd)
      (f := (fun c => (hexVal c : Nat)) ∘ hexChar) (g := id)
      (fun a ha => hexVal_hexChar a (hexDigits64_lt rnd a ha))
    rw [hid, List.map_id]
  rw [hmap]
  unfold hexDigits64
  rw [Nat.ofDigits_append, Nat.ofDigits_digits, ofDigits_replicate_zero]
  ring

/-- Helper: the padded digit list has length `max 64 (digit count)`. -/
theorem hexDigits64_length (rnd : Nat) :
    (hexDigits64 rnd).length
      = (Nat.digits 16 rnd).length + (64 - (Nat.digits 16 rnd).length) := by
  simp [hexDigits64]

/-- Helper: a 256-bit draw has at most 64 hex digits. -/
theorem digitsLen_le_of_lt (rnd : Nat) (h : rnd < 2 ^ 256) :
    (Nat.digits 16 rnd).length ≤ 64 := by
  rcases Nat.eq_zero_or_pos rnd with hz | hp
  · simp [hz]
  · by_contra hgt
    push_neg at hgt
    have hle : (16 : Nat) ^ (Nat.digits 16 rnd).length ≤ 16 * rnd :=
      Nat.base_pow_length_digits_le 16 rnd (by norm_num) hp.ne'
    have h65 : 65 ≤ (Nat.digits 16 rnd).length := hgt
    have hmono : (16 : Nat) ^ 65 ≤ 16 ^ (Nat.digits 16 rnd).length :=
      Nat.pow_le_pow_right (by norm_num) h65
    have h16 : (16 : Nat) ^ 65 = 16 * 16 ^ 64 := by ring
    have : 16 * 16 ^ 64 ≤ 16 * rnd := by
      calc 16 * 16 ^ 64 = 16 ^ 65 := h16.symm
        _ ≤ 16 ^ (Nat.digits 16 rnd).length := hmono
        _ ≤ 16 * rnd := hle
    have hfin : (16 : Nat) ^ 64 ≤ rnd := Nat.le_of_mul_le_mul_left this (by norm_num)
    have hpow : (16 : Nat) ^ 64 = 2 ^ 256 := by
      rw [show (16 : Nat) = 2 ^ 4 from rfl, ← pow_mul]
    omega

/-- Helper: tokens are 64 characters long for every 256-bit draw. -/
theorem tokenHex_length (rnd : Nat) (h : rnd < 2 ^ 256) :
    (tokenHex rnd).length = 64 := by
  have hd : (Nat.digits 16 rnd).length ≤ 64 := digitsLen_le_of_lt rnd h
  show ((hexDigits64 rnd).map hexChar).reverse.length = 64
  rw [List.length_reverse, List.length_map, hexDigits64_length]
  omega

/-- Helper: a token is never the empty string. -/
theorem tokenHex_ne_empty (rnd : Nat) : tokenHex rnd ≠ "" := by
  intro h
  have hdata : ((hexDigits64 rnd).map hexChar).reverse = ([] : List Char) :=
    congrArg String.data h
  have hlen := congrArg List.length hdata
  rw [List.length_reverse, List.length_map, hexDigits64_length,
    List.length_nil] at hlen
  omega

/-- Helper: `tokenHex` is injective — the token determines the draw, so
the token carries the full 256 bits of entropy of `secrets.token_hex(32)`. -/
theorem tokenHex_injective : Function.Injective tokenHex :=
  Function.LeftInverse.injective unTokenHex_tokenHex

/-- C6: `create(owner)` stores a session whose `expires_at` is the
creation time plus 24 hours (86400 s), and verifying the returned token
immediately after creation yields that same owner; the token is the
64-hex-character image of the 256-bit random draw under the injective
`tokenHex`, so it carries at least 256 bits of entropy. -/
theorem C6_create_verify_roundtrip (username : String) (rnd : Nat) (st : Store)
    (now : Nat) (h : rnd < 2 ^ 256) :
    lookupS (create_session username rnd st now).fst
        (create_session username rnd st now).snd
        = some ⟨username, now, now + 86400⟩ ∧
      (get_current_user (some (create_session username rnd st now).fst)
          (create_session username rnd st now).snd now).fst = some username ∧
      ((create_session username rnd st now).fst).length = 64 ∧
      Function.Injective tokenHex := by
  have hne : tokenHex rnd ≠ "" := tokenHex_ne_empty rnd
  refine ⟨lookupS_cons_self _ _ _, ?_, tokenHex_length rnd h, tokenHex_injective⟩
  have hnotexp : ¬ ((⟨username, now, now + 86400⟩ : Session).expires_at < now) := by
    show ¬ (now + 86400 < now); omega
  simp [get_current_user, verify_session, create_session, hne,
    lookupS_cons_self, hnotexp]

/-- Witness for `C6_create_verify_roundtrip` at a concrete input. -/
theorem C6_create_verify_roundtrip_witness :
    0 < 2 ^ 256 ∧
      (lookupS (create_session "admin" 0 [] 0).fst
          (create_session "admin" 0 [] 0).snd = some ⟨"admin", 0, 86400⟩ ∧
        (get_current_user (some (create_session "admin" 0 [] 0).fst)
            (create_session "admin" 0 [] 0).snd 0).fst = some "admin" ∧
        ((create_session "admin" 0 [] 0).fst).length = 64 ∧
        Function.Injective tokenHex) :=
  ⟨Nat.pos_pow_of_pos 256 (by norm_num),
    C6_create_verify_roundtrip "admin" 0 [] 0 (Nat.pos_pow_of_pos 256 (by norm_num))⟩

/-- Helper: erasing the key just prepended restores the tail. -/
theorem eraseS_cons_self (t : String) (s : Session) (st : Store) :
    eraseS t ((t, s) :: st) = st := by
  simp [eraseS]

/-- C8: a login with the correct admin credentials returns status 200
with `success = true` and sets the session cookie; `GET /api/me` with
that cookie then reports `logged_in = true` with the admin username;
after `POST /api/logout` the same cookie's `/api/me` reports
`logged_in = false`; a login with wrong credentials returns 401, sets no
cookie and leaves the store unchanged.  (`hfresh`: the drawn token is not
already a key of the store, as a 256-bit random draw is.) -/
theorem C8_login_flow (adminU adminP : String) (rnd : Nat) (st : Store)
    (now : Nat) (hfresh : lookupS (tokenHex rnd) st = none) :
    (login adminU adminP adminU adminP rnd st now).status = 200 ∧
      (login adminU adminP adminU adminP rnd st now).success = true ∧
      (login adminU adminP adminU adminP rnd st now).cookie
        = some (tokenHex rnd) ∧
      (get_me (some (tokenHex rnd))
          (login adminU adminP adminU adminP rnd st now).store now).fst
        = (true, some adminU) ∧
      (get_me (some (tokenHex rnd))
          (logout (some (tokenHex rnd))
            (login adminU adminP adminU adminP rnd st now).store) now).fst
        = (false, none) ∧
      (∀ u p, ¬ (u = adminU ∧ p = adminP) →
        login adminU adminP u p rnd st now = ⟨401, false, none, st⟩) := by
  have hne : tokenHex rnd ≠ "" := tokenHex_ne_empty rnd
  have hlogin : login adminU adminP adminU adminP rnd st now
      = ⟨200, true, some (tokenHex rnd),
          (tokenHex rnd, ⟨adminU, now, now + 86400⟩) :: st⟩ := by
    simp [login, create_session]
  have hnotexp : ¬ ((⟨adminU, now, now + 86400⟩ : Session).expires_at < now) := by
    show ¬ (now + 86400 < now); omega
  refine ⟨by rw [hlogin], by rw [hlogin], by rw [hlogin], ?_, ?_, ?_⟩
  · rw [hlogin]
    simp [get_me, verify_session, hne, lookupS_cons_self, hnotexp]
  · rw [hlogin]
    have hlogout : logout (some (tokenHex rnd))
        ((tokenHex rnd, ⟨adminU, now, now + 86400⟩) :: st) = st := by
      simp [logout, hne, lookupS_cons_self, eraseS_cons_self]
    rw [show (⟨200, true, some (tokenHex rnd),
        (tokenHex rnd, ⟨adminU, now, now + 86400⟩) :: st⟩ : LoginResult).store
      = (tokenHex rnd, ⟨adminU, now, now + 86400⟩) :: st from rfl, hlogout]
    simp [get_me, verify_session, hne, hfresh]
  · intro u p hup
    simp [login, hup]

/-- Witness for `C8_login_flow` at a concrete input. -/
theorem C8_login_flow_witness :
    lookupS (tokenHex 0) [] = none ∧
      ((login "admin" "admin123" "admin" "admin123" 0 [] 0).status = 200 ∧
        (login "admin" "admin123" "admin" "admin123" 0 [] 0).success = true ∧
        (login "admin" "admin123" "admin" "admin123" 0 [] 0).cookie
          = some (tokenHex 0) ∧
        (get_me (some (tokenHex 0))
            (login "admin" "admin123" "admin" "admin123" 0 [] 0).store 0).fst
          = (true, some "admin") ∧
        (get_me (some (tokenHex 0))
            (logout (some (tokenHex 0))
              (login "admin" "admin123" "admin" "admin123" 0 [] 0).store) 0).fst
          = (false, none) ∧
        (∀ u p, ¬ (u = "admin" ∧ p = "admin123") →
          login "admin" "admin123" u p 0 [] 0 = ⟨401, false, none, []⟩)) :=
  ⟨rfl, C8_login_flow "admin" "admin123" 0 [] 0 rfl⟩

/-- C9: the catch-all file route serves an existing file whose name ends
in `.css`, `.js`, `.png`, `.ico` or `.svg` without any authentication
check: for every presented token — valid, invalid or absent — the
response is the file's contents and the session store is untouched, so
the responses for any two tokens are identical. -/
theorem C9_static_no_auth (filename : String) (c : String)
    (fs : String → Option String) (st : Store) (now : Nat) (tok : Option String)
    (hext : staticExt filename = true) (hfs : fs filename = some c) :
    serve_file filename tok fs st now = (FileResp.file c, st) := by
  unfold serve_file
  rw [if_pos ⟨hext, by rw [hfs]; rfl⟩, hfs]
  rfl

/-- Witness for `C9_static_no_auth` at a concrete input. -/
theorem C9_static_no_auth_witness :
    staticExt "style.css" = true ∧
      ((fun f => if f = "style.css" then some "body" else none) "style.css"
        = some "body") ∧
      serve_file "style.css" (some "badtoken")
          (fun f => if f = "style.css" then some "body" else none) [] 0
        = (FileResp.file "body", []) :=
  ⟨by decide, by decide,
    C9_static_no_auth "style.css" "body"
      (fun f => if f = "style.css" then some "body" else none) [] 0
      (some "badtoken") (by decide) (by decide)⟩

/-- C10: a `tts` message whose `text` field is empty or absent is skipped
by `websocket_tts`: no frame is sent to the client, no upstream session
is opened, and the loop continues with the remaining messages. -/
theorem C10_empty_text_skipped (upstream : String → List Frame)
    (text : Option String) (rest : List TMsg)
    (h : text = none ∨ text = some "") :
    ttsStep upstream (TMsg.typed (some "tts") text) = some ([], 0) ∧
      ttsLoop upstream (TMsg.typed (some "tts") text :: rest)
        = ttsLoop upstream rest := by
  have hstep : ttsStep upstream (TMsg.typed (some "tts") text) = some ([], 0) := by
    rcases h with h | h <;> simp [ttsStep, h]
  exact ⟨hstep, by simp [ttsLoop, hstep]⟩

/-- Witness for `C10_empty_text_skipped` at a concrete input. -/
theorem C10_empty_text_skipped_witness :
    ((some "" : Option String) = none ∨ (some "" : Option String) = some "") ∧
      (ttsStep (fun s => [Frame.audio s]) (TMsg.typed (some "tts") (some ""))
          = some ([], 0) ∧
        ttsLoop (fun s => [Frame.audio s])
            [TMsg.typed (some "tts") (some ""), TMsg.typed (some "tts") (some "hi")]
          = ttsLoop (fun s => [Frame.audio s])
              [TMsg.typed (some "tts") (some "hi")]) :=
  ⟨Or.inr rfl,
    C10_empty_text_skipped (fun s => [Frame.audio s]) (some "")
      [TMsg.typed (some "tts") (some "hi")] (Or.inr rfl)⟩

/-- C3: in the chunked text-to-speech mode, a request split into 3 chunks
produces exactly 3 `progress` frames, all with `total = 3` and with
`current` = 1, 2, 3 in order, each emitted immediately before the
corresponding chunk's upstream session, and exactly one `complete` frame,
after the last chunk's turn (it is the final frame).  The upstream
session frames themselves are audio/text/error frames, never `progress`
or `complete` (hypothesis `h`). -/
theorem C3_three_chunk_progress (upstream : String → List Frame)
    (c1 c2 c3 : String)
    (h : ∀ s, ∀ f ∈ upstream s, isProgress f = false ∧ f ≠ Frame.complete) :
    chunkedTTS upstream [c1, c2, c3]
        = Frame.progress 1 3 :: (upstream c1 ++ (Frame.progress 2 3 ::
            (upstream c2 ++ (Frame.progress 3 3 ::
              (upstream c3 ++ [Frame.complete]))))) ∧
      (chunkedTTS upstream [c1, c2, c3]).filter isProgress
        = [Frame.progress 1 3, Frame.progress 2 3, Frame.progress 3 3] ∧
      (chunkedTTS upstream [c1, c2, c3]).count Frame.complete = 1 ∧
      (chunkedTTS upstream [c1, c2, c3]).getLast? = some Frame.complete := by
  have htrace : chunkedTTS upstream [c1, c2, c3]
      = Frame.progress 1 3 :: (upstream c1 ++ (Frame.progress 2 3 ::
          (upstream c2 ++ (Frame.progress 3 3 ::
            (upstream c3 ++ [Frame.complete]))))) := by
    simp [chunkedTTS, chunkFrames]
  have hfil : ∀ s, (upstream s).filter isProgress = [] :=
    fun s => List.filter_eq_nil_iff.mpr fun f hf => by
      simp [(h s f hf).1]
  have hcnt : ∀ s, (upstream s).count Frame.complete = 0 :=
    fun s => List.count_eq_zero.mpr fun hf => (h s Frame.complete hf).2 rfl
  refine ⟨htrace, ?_, ?_, ?_⟩
  · rw [htrace]
    simp [List.filter_append, hfil, isProgress]
  · rw [htrace]
    simp [List.count_append, List.count_cons, hcnt]
  · show (chunkFrames upstream 3 1 [c1, c2, c3] ++ [Frame.complete]).getLast?
      = some Frame.complete
    exact List.getLast?_concat _

/-- Witness for `C3_three_chunk_progress` at a concrete input. -/
theorem C3_three_chunk_progress_witness :
    (∀ s, ∀ f ∈ (fun t => [Frame.audio t]) s,
        isProgress f = false ∧ f ≠ Frame.complete) ∧
      (chunkedTTS (fun t => [Frame.audio t]) ["x", "y", "z"]
          = Frame.progress 1 3 :: ((fun t => [Frame.audio t]) "x" ++
              (Frame.progress 2 3 :: ((fun t => [Frame.audio t]) "y" ++
                (Frame.progress 3 3 :: ((fun t => [Frame.audio t]) "z" ++
                  [Frame.complete]))))) ∧
        (chunkedTTS (fun t => [Frame.audio t]) ["x", "y", "z"]).filter isProgress
          = [Frame.progress 1 3, Frame.progress 2 3, Frame.progress 3 3] ∧
        (chunkedTTS (fun t => [Frame.audio t]) ["x", "y", "z"]).count
            Frame.complete = 1 ∧
        (chunkedTTS (fun t => [Frame.audio t]) ["x", "y", "z"]).getLast?
          = some Frame.complete) :=
  ⟨fun s f hf => by
      rcases List.mem_singleton.mp hf with rfl
      exact ⟨rfl, by simp⟩,
    C3_three_chunk_progress (fun t => [Frame.audio t]) "x" "y" "z"
      (fun s f hf => by
        rcases List.mem_singleton.mp hf with rfl
        exact ⟨rfl, by simp⟩)⟩

/-- Helper: segmentation loses no characters — the segments flatten back
to the pending buffer followed by the remaining input. -/
theorem segmentBy_flatten (p : Char → Bool) :
    ∀ (l acc : List Char), (segmentBy p acc l).flatten = acc.reverse ++ l := by
  intro l
  induction l with
  | nil =>
    intro acc
    by_cases h : acc.isEmpty
    · simp [segmentBy, h, List.isEmpty_iff.mp h]
    · simp [segmentBy, h]
  | cons c cs ih =>
    intro acc
    by_cases h : p c = true
    · simp [segmentBy, h, ih []]
    · rw [segmentBy, if_neg h, ih (c :: acc)]
      simp

/-- Helper: within a segment, the boundary punctuation can occur only as
the last character: every earlier character fails `p`. -/
theorem segmentBy_dropLast_not (p : Char → Bool) :
    ∀ (l acc : List Char), (∀ a ∈ acc, p a = false) →
      ∀ s ∈ segmentBy p acc l, ∀ a ∈ s.dropLast, p a = false := by
  intro l
  induction l with
  | nil =>
    intro acc hacc s hs a ha
    by_cases h : acc.isEmpty
    · rw [segmentBy, if_pos h] at hs
      exact absurd hs (List.not_mem_nil s)
    · rw [segmentBy, if_neg h] at hs
      rcases List.mem_singleton.mp hs with rfl
      exact hacc a (List.mem_reverse.mp (List.dropLast_subset _ ha))
  | cons c cs ih =>
    intro acc hacc s hs a ha
    by_cases h : p c = true
    · rw [segmentBy, if_pos h] at hs
      rcases List.mem_cons.mp hs with rfl | hs'
      · rw [List.dropLast_concat] at ha
        exact hacc a (List.mem_reverse.mp ha)
      · exact ih [] (by simp) s hs' a ha
    · rw [segmentBy, if_neg h] at hs
      refine ih (c :: acc) ?_ s hs a ha
      intro b hb
      rcases List.mem_cons.mp hb with rfl | hb
      · exact Bool.not_eq_true _ ▸ h
      · exact hacc b hb

/-- Helper: greedy packing loses no characters — the chunks flatten back
to the pending buffer followed by the flattened segments — provided the
oversized sub-split does the same on the oversized segments. -/
theorem packChunks_flatten (S : Nat) (big : List Char → List (List Char)) :
    ∀ (l : List (List Char)) (buf : List Char),
      (∀ s ∈ l, S < s.length → (big s).flatten = s) →
      (packChunks S big l buf).flatten = buf ++ l.flatten := by
  intro l
  induction l with
  | nil =>
    intro buf _
    by_cases hb : buf.isEmpty
    · simp [packChunks, hb, List.isEmpty_iff.mp hb]
    · simp [packChunks, hb]
  | cons s rest ih =>
    intro buf h
    have hrest : ∀ u ∈ rest, S < u.length → (big u).flatten = u :=
      fun u hu => h u (List.mem_cons_of_mem s hu)
    by_cases h1 : buf.length + s.length ≤ S
    · rw [packChunks, if_pos h1, ih (buf ++ s) hrest]
      simp
    · by_cases h2 : s.length ≤ S
      · rw [packChunks, if_neg h1, if_pos h2]
        simp [ih s hrest]
      · rw [packChunks, if_neg h1, if_neg h2]
        have hbig : (big s).flatten = s :=
          h s (List.mem_cons_self s rest) (Nat.lt_of_not_le h2)
        by_cases hb : buf.isEmpty
        · simp [hb, ih [] hrest, hbig, List.isEmpty_iff.mp hb]
        · simp [hb, ih [] hrest, hbig]

/-- Helper: every chunk produced by greedy packing either fits the bound
or came out of the oversized sub-split `big`, whose chunks satisfy `Q`;
the running buffer never exceeds the bound. -/
theorem packChunks_mem (S : Nat) (big : List Char → List (List Char))
    (Q : List Char → Prop) :
    ∀ (l : List (List Char)) (buf : List Char),
      (∀ s ∈ l, S < s.length → ∀ c ∈ big s, Q c) → buf.length ≤ S →
      ∀ c ∈ packChunks S big l buf, c.length ≤ S ∨ Q c := by
  intro l
  induction l with
  | nil =>
    intro buf _ hbuf c hc
    by_cases hb : buf.isEmpty
    · rw [packChunks, if_pos hb] at hc
      exact absurd hc (List.not_mem_nil c)
    · rw [packChunks, if_neg hb] at hc
      rcases List.mem_singleton.mp hc with rfl
      exact Or.inl hbuf
  | cons s rest ih =>
    intro buf h hbuf c hc
    have hrest : ∀ u ∈ rest, S < u.length → ∀ d ∈ big u, Q d :=
      fun u hu => h u (List.mem_cons_of_mem s hu)
    by_cases h1 : buf.length + s.length ≤ S
    · rw [packChunks, if_pos h1] at hc
      exact ih (buf ++ s) hrest (by simpa using h1) c hc
    · by_cases h2 : s.length ≤ S
      · rw [packChunks, if_neg h1, if_pos h2] at hc
        rcases List.mem_cons.mp hc with rfl | hc'
        · exact Or.inl hbuf
        · exact ih s hrest h2 c hc'
      · rw [packChunks, if_neg h1, if_neg h2] at hc
        rcases List.mem_append.mp hc with hc' | hc'
        · rcases List.mem_append.mp hc' with hc'' | hc''
          · by_cases hb : buf.isEmpty
            · rw [if_pos hb] at hc''
              exact absurd hc'' (List.not_mem_nil c)
            · rw [if_neg hb] at hc''
              rcases List.mem_singleton.mp hc'' with rfl
              exact Or.inl hbuf
          · exact Or.inr
              (h s (List.mem_cons_self s rest) (Nat.lt_of_not_le h2) c hc'')
        · exact ih [] hrest (by simp) c hc'

/-- Helper: the clause sub-split of a sentence loses no characters. -/
theorem splitClause_flatten (S : Nat) (s : List Char) :
    (splitClause S s).flatten = s := by
  unfold splitClause
  rw [packChunks_flatten S _ _ [] (fun c _ _ => by simp)]
  simpa using segmentBy_flatten clausePunct s []

/-- Helper: a chunk of the clause sub-split either fits the bound or is a
single clause — no clause punctuation before its final character. -/
theorem splitClause_mem (S : Nat) (s : List Char) :
    ∀ c ∈ splitClause S s,
      c.length ≤ S ∨ ∀ a ∈ c.dropLast, clausePunct a = false := by
  intro c hc
  refine packChunks_mem S (fun c => [c])
    (fun c => ∀ a ∈ c.dropLast, clausePunct a = false)
    (segmentBy clausePunct [] s) [] ?_ (by simp) c hc
  intro seg hseg _ d hd
  rcases List.mem_singleton.mp hd with rfl
  exact segmentBy_dropLast_not clausePunct s [] (by simp) d hseg

/-- C7 (amended): for every text `T` and bound `S`, `split(T, S)` returns
the single chunk `T` when `len(T) ≤ S`; otherwise the concatenation of
the chunks is the whitespace-normalized `T` (the text with its
pure-whitespace sentence segments discarded); and every chunk either has
length at most `S` or is an unavoidable oversized clause — it contains no
clause punctuation before its final character, so the splitter has no
boundary left to cut it at (there may be more than one such chunk). -/
theorem C7_chunker_amended (t : List Char) (S : Nat) :
    (t.length ≤ S → splitText S t = [t]) ∧
      (S < t.length → (splitText S t).flatten = normalizeText t) ∧
      (∀ c ∈ splitText S t,
        c.length ≤ S ∨ ∀ a ∈ c.dropLast, clausePunct a = false) := by
  refine ⟨fun hle => ?_, fun hgt => ?_, fun c hc => ?_⟩
  · rw [splitText, if_pos hle]
  · rw [splitText, if_neg (Nat.not_le.mpr hgt)]
    rw [packChunks_flatten S _ _ [] (fun s _ _ => splitClause_flatten S s)]
    rfl
  · by_cases hle : t.length ≤ S
    · rw [splitText, if_pos hle] at hc
      rcases List.mem_singleton.mp hc with rfl
      exact Or.inl hle
    · rw [splitText, if_neg hle] at hc
      have hmem := packChunks_mem S (splitClause S)
        (fun c => c.length ≤ S ∨ ∀ a ∈ c.dropLast, clausePunct a = false)
        (sentenceSegs t) []
        (fun s _ _ d hd => splitClause_mem S s d hd) (by simp) c hc
      rcases hmem with h | h
      · exact Or.inl h
      · exact h

/-- Witness for `C7_chunker_amended` at concrete inputs: a short text is
returned whole, and an oversized text's chunks concatenate to the
normalized text. -/
theorem C7_chunker_amended_witness :
    splitText 5 ['h', 'i'] = [['h', 'i']] ∧
      (splitText 3 ['h', 'i', '.', ' ', 'y', 'o', '.']).flatten
        = normalizeText ['h', 'i', '.', ' ', 'y', 'o', '.'] :=
  ⟨(C7_chunker_amended ['h', 'i'] 5).1 (by decide),
    (C7_chunker_amended ['h', 'i', '.', ' ', 'y', 'o', '.'] 3).2.1 (by decide)⟩

/-- C7: the claim allows at most one oversized chunk ("except possibly
one unavoidable oversized clause").  With `S = 2` and the text
`"aaa,bbb."`, the single sentence exceeds the bound and both of its
clauses do too, so the splitter emits two chunks longer than `S`,
refuting the claim at this concrete input (`S = 2 > 0`). -/
theorem C7_counterexample :
    ¬ ((splitText 2 ['a', 'a', 'a', ',', 'b', 'b', 'b', '.']).countP
        (fun c => decide (2 < c.length)) ≤ 1) := by
  decide
